import Mathlib

/-!
Verification of the mdp configuration editor of the gbsa-pipeline repository
(src/gbsa_pipeline/change_params.py, gmx_edit_defaults.py, change_defaults.py,
change_defaults_enum.py), shallowly embedded in Lean.

Modelling conventions:
* A text line is a Lean `String` (in this Lean version a `String` wraps a
  `List Char`); a configuration buffer is a `List String`.  The Python code
  mutates the buffer in place; the embedding passes buffers by value, which is
  observationally the same for all properties considered here.
* Python values that can flow into the editor are modelled by the inductive
  `PyVal`: booleans, integers, floats, strings, enumeration members (objects
  carrying a string `value` attribute — all enums of the repository are
  `StrEnum`s) and `other t`, an object of any unsupported type whose type name
  is `t`.
* Python floats are modelled by the exact decimal value of their literal,
  as a pair `mant * 10 ^ exp10` (`mant : Int`, `exp10 : Int`), and `str()` of a
  float is modelled by plain decimal rendering of that value.  CPython renders
  the shortest round-tripping representation of the nearest IEEE double; the
  two agree on every decimal literal exercised by the specification (IEEE
  rounding, overflow to infinity and the scientific-notation regime of
  `str()` are outside the exercised range and not modelled).
* Python `str.strip` / `str.isspace` are modelled on the six ASCII whitespace
  characters; `str.lower` is modelled ASCII-only.  All keys, values and
  enumeration members of the repository are ASCII.
* Exceptions are modelled with `Except`: `format_gmx_value` and the editor
  return `Except String _` (the message of the `TypeError`), and the protocol
  setter returns `Except PErr _` distinguishing `TypeError` and `ValueError`.
-/

/-- Python `str.isspace` on the ASCII whitespace characters
(space, tab, newline, carriage return, vertical tab, form feed). -/
def pyIsSpace (c : Char) : Bool :=
  c = ' ' || c = '\t' || c = '\n' || c = '\r' || c = Char.ofNat 11 || c = Char.ofNat 12

/-- Inline-comment delimiters of the mdp format (`;` and `#`). -/
def isDelimC (c : Char) : Bool :=
  c = ';' || c = '#'

/-- Drop trailing characters satisfying `pyIsSpace` (the right half of
Python `str.strip`). -/
def dropTrailingWs : List Char → List Char
  | [] => []
  | c :: cs =>
    let r := dropTrailingWs cs
    if r = [] && pyIsSpace c then [] else c :: r

/-- Python `str.strip()` on a list of characters. -/
def pyStripL (l : List Char) : List Char :=
  dropTrailingWs (l.dropWhile pyIsSpace)

/-- Python `str.strip()`. -/
def pyStripS (s : String) : String :=
  String.mk (pyStripL s.data)

/-- Python `str.lower()` (ASCII). -/
def pyLowerS (s : String) : String :=
  String.mk (s.data.map Char.toLower)

/-- `str.partition("=")`: split at the first `=`.  Returns
`(left, sepFound, right)`; when no `=` occurs the flag is `false`,
`left` is the whole string and `right` is empty, exactly as in Python. -/
def partitionEqL : List Char → List Char × Bool × List Char
  | [] => ([], false, [])
  | c :: cs =>
    if c = '=' then ([], true, cs)
    else
      let r := partitionEqL cs
      (c :: r.1, r.2.1, r.2.2)

/-- `_split_inline_comment` of change_params.py: split at the earliest
occurrence of `;` or `#` (the source computes `find(";")`, `find("#")` and
takes the smaller present index, which is exactly the first occurrence of
either delimiter); if neither occurs, the comment part is empty. -/
def split_inline_comment : List Char → List Char × List Char
  | [] => ([], [])
  | c :: cs =>
    if isDelimC c then ([], c :: cs)
    else
      let r := split_inline_comment cs
      (c :: r.1, r.2)

/-- `_leading_ws` of change_params.py: the maximal whitespace head of a
string (the source scans while `s[i].isspace()`). -/
def leading_ws (l : List Char) : List Char :=
  l.takeWhile pyIsSpace

/-- Whether a character list begins with a comment delimiter (`#` or `;`),
the test `startswith(("#", ";"))` applied to a stripped line. -/
def startsCommentL : List Char → Bool
  | [] => false
  | c :: _ => c = '#' || c = ';'

/-- Python values reaching the editor: bool, int, float (exact decimal value
`mant * 10 ^ exp10`, see the module docstring), str, a `StrEnum` member whose
`.value` attribute is the given string, and an object of an unsupported
type whose type name is the given string. -/
inductive PyVal where
  | bool (b : Bool)
  | int (n : Int)
  | float (mant : Int) (exp10 : Int)
  | str (s : String)
  | enum (s : String)
  | other (typeName : String)
deriving DecidableEq

/-- Decimal digits of a natural number, most significant first
(fuel-driven; `fuel = n + 1` always suffices). -/
def natDigitsAux : Nat → Nat → List Char
  | 0, _ => []
  | fuel + 1, n =>
    if n < 10 then [Char.ofNat (48 + n)]
    else natDigitsAux fuel (n / 10) ++ [Char.ofNat (48 + n % 10)]

/-- Python `str()` of a natural number. -/
def natStr (n : Nat) : List Char :=
  natDigitsAux (n + 1) n

/-- Python `str()` of an integer. -/
def intStr : Int → List Char
  | .ofNat m => natStr m
  | .negSucc m => '-' :: natStr (m + 1)

/-- Remove factors of 10 from a nonzero mantissa, moving them into the
exponent (fuel-driven on `mant.natAbs`). -/
def stripZerosAux : Nat → Int → Int → Int × Int
  | 0, m, e => (m, e)
  | fuel + 1, m, e =>
    if m ≠ 0 && m % 10 = 0 then stripZerosAux fuel (m / 10) (e + 1) else (m, e)

/-- Digit list of `m`, left-padded with zeros to at least `k + 1` digits. -/
def decDigitsPad (m k : Nat) : List Char :=
  let ds := natStr m
  List.replicate (k + 1 - ds.length) '0' ++ ds

/-- Python `str()` of the float with exact value `mant * 10 ^ exp10`,
rendered in plain decimal notation (see the module docstring for the scope
of this model of CPython float repr). -/
def decStr (mant exp10 : Int) : List Char :=
  let p := stripZerosAux mant.natAbs mant exp10
  let m := p.1
  let e := p.2
  if m = 0 then ['0', '.', '0']
  else
    let body :=
      if 0 ≤ e then
        natStr m.natAbs ++ List.replicate e.toNat '0' ++ ['.', '0']
      else
        (decDigitsPad m.natAbs (-e).toNat).take
            ((decDigitsPad m.natAbs (-e).toNat).length - (-e).toNat)
          ++ '.' :: (decDigitsPad m.natAbs (-e).toNat).drop
            ((decDigitsPad m.natAbs (-e).toNat).length - (-e).toNat)
    if m < 0 then '-' :: body else body

/-- `format_gmx_value` of change_params.py: convert a Python value to its
mdp string.  An object with a `value` attribute (an enum member) is first
replaced by that attribute; then bool maps to `yes`/`no`, int and float go
through `str()`, a string is stripped, and any other type raises
`TypeError("Unsupported .mdp value type: <name>")`. -/
def format_gmx_value : PyVal → Except String String
  | .enum s => .ok (pyStripS s)
  | .bool b => .ok (if b then "yes" else "no")
  | .int n => .ok (String.mk (intStr n))
  | .float m e => .ok (String.mk (decStr m e))
  | .str s => .ok (pyStripS s)
  | .other t => .error ("Unsupported .mdp value type: " ++ t)

/-- `is_comment` of change_params.py: a line is blank or a full-line comment
if, after `lstrip()`, it is empty or starts with `#` or `;`. -/
def is_comment (l : String) : Bool :=
  match l.data.dropWhile pyIsSpace with
  | [] => true
  | c :: _ => c = '#' || c = ';'

/-- The scan condition of the loop of `set_mdp_key`: the line is not a
blank/comment line, it contains a `=`, and the stripped left-hand side
equals the (already stripped) wanted key. -/
def matchesKey (w : List Char) (l : String) : Bool :=
  if is_comment l then false
  else
    match partitionEqL l.data with
    | (left, true, _) => pyStripL left == w
    | (_, false, _) => false

/-- The line-rewriting step of `set_mdp_key` on a matched line: keep the
left-hand side and the `=`, keep the leading whitespace of the old value
region, substitute the formatted value, and keep the inline comment from
its delimiter onward.  (On a line with no `=` the function returns the
line unchanged; it is only invoked on matched lines.) -/
def rewriteLine (l : String) (mdp : List Char) : String :=
  match partitionEqL l.data with
  | (left, true, right) =>
    let bc := split_inline_comment right
    String.mk (left ++ '=' :: (leading_ws bc.1 ++ mdp ++ bc.2))
  | (_, false, _) => l

/-- Python `str.ljust`: pad on the right with spaces to a minimum width. -/
def ljustL (w : List Char) (width : Nat) : List Char :=
  w ++ List.replicate (width - w.length) ' '

/-- The appended line of `set_mdp_key` when the key is absent:
the stripped key left-justified to 28 characters, then `" = "`, then the
formatted value. -/
def appendLine (w mdp : List Char) : String :=
  String.mk (ljustL w 28 ++ ' ' :: '=' :: ' ' :: mdp)

/-- The scan loop of `set_mdp_key`: rewrite the first matching line and
stop; if no line matches, append the new aligned line at the end. -/
def set_mdp_go (w mdp : List Char) : List String → List String
  | [] => [appendLine w mdp]
  | l :: ls =>
    if matchesKey w l then rewriteLine l mdp :: ls
    else l :: set_mdp_go w mdp ls

/-- `set_mdp_key` of change_params.py.  Formats the value (propagating the
`TypeError` of `format_gmx_value`), strips the key, and runs the scan loop.
The source's `inplace` flag only chooses between mutating the given list
and a copy; both produce this buffer. -/
def set_mdp_key (lines : List String) (key : String) (v : PyVal) :
    Except String (List String) :=
  match format_gmx_value v with
  | .error e => .error e
  | .ok mdp => .ok (set_mdp_go (pyStripL key.data) mdp.data lines)

/-- `change_default_params` of change_params.py: apply each pair of the
mapping in order through `set_mdp_key`. -/
def change_default_params (lines : List String) :
    List (String × PyVal) → Except String (List String)
  | [] => .ok lines
  | (k, v) :: rest =>
    match set_mdp_key lines k v with
    | .ok out => change_default_params out rest
    | .error e => .error e

example :
    set_mdp_key ["nstlog    = 500   ; log frequency"] "nstlog" (.int 1000)
      = .ok ["nstlog    = 1000; log frequency"] := rfl
example :
    set_mdp_key ["dt = 0.002", "dt = 0.004"] "dt" (.float 1 (-3))
      = .ok ["dt = 0.001", "dt = 0.004"] := rfl
example :
    set_mdp_key [] "new-key" (.int 42)
      = .ok ["new-key                      = 42"] := rfl
example :
    set_mdp_key ["k                           = v;c"] "k" (.str "v;c")
      = .ok ["k                           = v;c;c"] := rfl
example :
    change_default_params ["integrator = md ; leap-frog", "dt = 0.002", "nsteps = 500"]
        [("nsteps", .int 1000), ("nstlog", .int 250)]
      = .ok ["integrator = md ; leap-frog", "dt = 0.002", "nsteps = 1000",
             "nstlog                       = 250"] := rfl

/-- A run of decimal digits with PEP-515 underscores (an underscore must sit
between two digits).  Starting from an accumulated value and digit count,
consume the longest valid run and return value, count and the rest. -/
def digitRunGo (v cnt : Nat) : List Char → Nat × Nat × List Char
  | [] => (v, cnt, [])
  | c :: cs =>
    if c.isDigit then digitRunGo (10 * v + (c.toNat - 48)) (cnt + 1) cs
    else if c = '_' then
      match cs with
      | d :: cs' =>
        if d.isDigit then digitRunGo (10 * v + (d.toNat - 48)) (cnt + 1) cs'
        else (v, cnt, c :: cs)
      | [] => (v, cnt, c :: cs)
    else (v, cnt, c :: cs)

/-- A digit run must start with a digit (Python rejects a leading
underscore). -/
def digitRun : List Char → Option (Nat × Nat × List Char)
  | [] => none
  | c :: cs =>
    if c.isDigit then some (digitRunGo (c.toNat - 48) 1 cs) else none

/-- An optional leading sign. -/
def parseSign : List Char → Int × List Char
  | '+' :: cs => (1, cs)
  | '-' :: cs => (-1, cs)
  | cs => (1, cs)

/-- Python `int(text)` on already-stripped text: optional sign then a
digit run consuming the whole string. -/
def pyIntOfString (l : List Char) : Option Int :=
  let p := parseSign l
  match digitRun p.2 with
  | some (v, _, []) => some (p.1 * v)
  | _ => none

/-- The exponent part of a float literal, after the `e`/`E`:
an optional sign and a digit run consuming the rest. -/
def parseExpPart (l : List Char) : Option Int :=
  let p := parseSign l
  match digitRun p.2 with
  | some (v, _, []) => some (p.1 * v)
  | _ => none

/-- After the mantissa of a float literal: either nothing, or an
`e`/`E` exponent.  Produces the exact value `sgn * mant * 10 ^ (ex - cf)`
as a (mantissa, base-10 exponent) pair. -/
def withExpPart (sgn : Int) (mant cf : Nat) : List Char → Option (Int × Int)
  | [] => some (sgn * mant, -(cf : Int))
  | 'e' :: r => (parseExpPart r).map fun ex => (sgn * mant, ex - cf)
  | 'E' :: r => (parseExpPart r).map fun ex => (sgn * mant, ex - cf)
  | _ => none

/-- Python `float(text)` on already-stripped text, restricted to finite
numeric literals: optional sign, then `digits [. [digits]] [exp]` or
`. digits [exp]`, with PEP-515 underscores inside each digit run.  The
`inf`/`infinity`/`nan` forms contain none of `.`, `e`, `E` and therefore
never reach the float branch of `_parse_value`; they are not modelled. -/
def pyFloatOfString (l : List Char) : Option (Int × Int) :=
  let p := parseSign l
  match digitRun p.2 with
  | some (i, _, r1) =>
    match r1 with
    | '.' :: r2 =>
      match digitRun r2 with
      | some (f, cf, r3) => withExpPart p.1 (i * 10 ^ cf + f) cf r3
      | none => withExpPart p.1 i 0 r2
    | _ => withExpPart p.1 i 0 r1
  | none =>
    match p.2 with
    | '.' :: r2 =>
      match digitRun r2 with
      | some (f, cf, r3) => withExpPart p.1 f cf r3
      | none => none
    | _ => none

/-- `_parse_value` of gmx_edit_defaults.py: strip the text; the boolean
tokens `yes`/`true`/`on` and `no`/`false`/`off` (case-insensitive) parse to
booleans; otherwise, if the text contains `.`, `e` or `E` a float parse is
attempted, else an integer parse; a `ValueError` of either numeric parse
falls back to the stripped text itself. -/
def parse_value (raw : String) : PyVal :=
  let text := pyStripS raw
  let low := pyLowerS text
  if low = "yes" || low = "true" || low = "on" then .bool true
  else if low = "no" || low = "false" || low = "off" then .bool false
  else if text.data.any (fun c => c = '.' || c = 'e' || c = 'E') then
    match pyFloatOfString text.data with
    | some p => .float p.1 p.2
    | none => .str text
  else
    match pyIntOfString text.data with
    | some n => .int n
    | none => .str text

example : parse_value "0.001" = .float 1 (-3) := by decide
example : parse_value "100" = .int 100 := by decide
example : parse_value "md" = .str "md" := by decide
example : parse_value " yes " = .bool true := by decide
example : parse_value "OFF" = .bool false := by decide
example : parse_value "-1.5e-2" = .float (-15) (-3) := by decide
example : parse_value "1_0" = .int 10 := by decide
example : parse_value "1_" = .str "1_" := by decide
example : parse_value "1.2.3" = .str "1.2.3" := by decide
example : parse_value "verlet" = .str "verlet" := by decide

/-- Errors of the protocol-setter and file layer: Python `TypeError`,
`ValueError` (carrying the key and the rejected candidate of
`Invalid value for {key}: {value!r}`) and `FileNotFoundError`. -/
inductive PErr where
  | typeError (msg : String)
  | invalidValue (key : String) (candidate : String)
  | fileNotFound
deriving DecidableEq

/-- Python `dict` assignment `m[k] = v`: replace the value of an existing
key in place, else append the new pair. -/
def dictInsert (m : List (String × PyVal)) (k : String) (v : PyVal) :
    List (String × PyVal) :=
  match m with
  | [] => [(k, v)]
  | (k', v') :: rest =>
    if k' = k then (k, v) :: rest else (k', v') :: dictInsert rest k v

/-- The line loop of `_read_changes_file` of gmx_edit_defaults.py: skip
blank and `#`/`;`-prefixed lines, skip lines without `=`, and record
`key.strip() -> _parse_value(rhs)` for the rest. -/
def read_changes_aux : List String → List (String × PyVal) → List (String × PyVal)
  | [], m => m
  | line :: rest, m =>
    let s := pyStripL line.data
    if s = [] then read_changes_aux rest m
    else if isDelimC s.head! then read_changes_aux rest m
    else
      match partitionEqL s with
      | (_, false, _) => read_changes_aux rest m
      | (k, true, raw) =>
        read_changes_aux rest (dictInsert m (String.mk (pyStripL k)) (parse_value (String.mk raw)))

/-- `_read_changes_file` of gmx_edit_defaults.py.  The file system is
modelled as `Option (List String)`: `none` when no file exists at the path
(→ `FileNotFoundError`), `some ls` for a file whose `splitlines()` is `ls`. -/
def read_changes_file (content : Option (List String)) :
    Except PErr (List (String × PyVal)) :=
  match content with
  | none => .error .fileNotFound
  | some ls => .ok (read_changes_aux ls [])

/-- `apply_changes` of gmx_edit_defaults.py: read and parse the whole
override file, then apply every parsed pair to the buffer, returning
the parsed mapping.  The result is paired with the buffer after the call:
on `FileNotFoundError` the exception is raised before any edit, so the
buffer is returned unchanged.  (The inner `TypeError` branch is
unreachable: `parse_value` never produces an unsupported type.) -/
def apply_changes (lines : List String) (content : Option (List String)) :
    Except PErr (List (String × PyVal)) × List String :=
  match read_changes_file content with
  | .error e => (.error e, lines)
  | .ok changes =>
    match change_default_params lines changes with
    | .ok out => (.ok changes, out)
    | .error m => (.error (.typeError m), lines)

/-- The configuration-editing portion of `run_gro_custom` of
change_defaults.py (lines 442–451): starting from the protocol's config
lines, apply the override file first (when given), then the in-code
mapping (when given).  The construction of the BioSimSpace protocol and
the GROMACS process launch are external collaborators and out of scope. -/
def run_gro_custom_config (lines : List String)
    (changes : Option (List (String × PyVal)))
    (changes_file : Option (Option (List String))) :
    Except PErr (List String) :=
  let step1 : Except PErr (List String) :=
    match changes_file with
    | none => .ok lines
    | some content =>
      match apply_changes lines content with
      | (.ok _, out) => .ok out
      | (.error e, _) => .error e
  match step1 with
  | .error e => .error e
  | .ok l1 =>
    match changes with
    | none => .ok l1
    | some m =>
      match change_default_params l1 m with
      | .ok out => .ok out
      | .error msg => .error (.typeError msg)

example :
    run_gro_custom_config ["dt = 0.002"] (some [("dt", .float 5 (-4))])
        (some (some ["dt=0.001"]))
      = .ok ["dt = 0.0005"] := rfl
example :
    apply_changes ["a = 1"] (some ["=5"])
      = (.ok [("", .int 5)],
         ["a = 1", "                             = 5"]) := rfl

/-- `GromacsCustom._set_parameter` of change_defaults.py: strip the key;
replace an enum member by its `value` attribute; when an allowed-values
set is given, require a string, canonicalize it by case-insensitive
lookup (raising `ValueError` when absent, `TypeError` for a non-string);
record the resulting value in the pending `_parameters` dict. -/
def set_parameter (params : List (String × PyVal)) (parameter : String)
    (value : PyVal) (allowed_values : Option (List String)) :
    Except PErr (List (String × PyVal)) :=
  let key := pyStripS parameter
  let v1 := match value with
    | .enum s => PyVal.str s
    | x => x
  match allowed_values with
  | none => .ok (dictInsert params key v1)
  | some allowed =>
    match v1 with
    | .str s =>
      let v := pyLowerS (pyStripS s)
      match allowed.find? (fun a => pyLowerS a == v) with
      | some canonical => .ok (dictInsert params key (.str canonical))
      | none => .error (.invalidValue key s)
    | _ => .error (.typeError (key ++ " must be str when allowed_values is provided"))

/-- The member values of `Integrator` of change_defaults_enum.py
(`_enum_values` collects them into a set; the set is modelled as the list
of members in declaration order — every lookup below is shown to be
independent of the order because the lowercased members are pairwise
distinct). -/
def integratorValues : List String := ["md", "md-vv", "sd", "bd"]

/-- The member values of `CommMode` of change_defaults_enum.py. -/
def commModeValues : List String :=
  ["Linear", "Angular", "Linear-acceleration-correction", "None"]

/-- The member values of `NghCutoffScheme` of change_defaults_enum.py. -/
def nghCutoffSchemeValues : List String := ["Verlet", "group"]

/-- The member values of `CoulombType` of change_defaults_enum.py. -/
def coulombTypeValues : List String :=
  ["Cut-off", "Ewald", "PME", "PM3-AD", "Reaction-field"]

/-- The member values of `CoulombModifier` of change_defaults_enum.py. -/
def coulombModifierValues : List String := ["Potential-shift", "None"]

/-- The member values of `VDWType` of change_defaults_enum.py. -/
def vdwTypeValues : List String := ["Cut-off", "Shift", "PME", "Switch"]

/-- The member values of `DispCorr` of change_defaults_enum.py. -/
def dispCorrValues : List String := ["no", "EnerPres", "Energy"]

/-- The member values of `VDWModifier` of change_defaults_enum.py. -/
def vdwModifierValues : List String :=
  ["Potential_Shift", "None", "Force-switch", "potential-switch"]

/-- The member values of `Barostat` of change_defaults_enum.py. -/
def barostatValues : List String :=
  ["no", "Berendsen", "C-rescale", "Parrinello-Rahman", "MTTK"]

/-- The member values of `ConstraintsAlgorithms` of change_defaults_enum.py. -/
def constraintsAlgorithmsValues : List String := ["LINCS", "SHAKE"]

/-- The literal allowed set of `set_pbc` of change_defaults.py. -/
def pbcValues : List String := ["xyz", "no", "xy", "screw"]

example :
    set_parameter [] "integrator" (.str "MD") (some integratorValues)
      = .ok [("integrator", .str "md")] := rfl
example :
    set_parameter [] "integrator" (.str "bogus") (some integratorValues)
      = .error (.invalidValue "integrator" "bogus") := rfl
example :
    set_parameter [] "integrator" (.int 3) (some integratorValues)
      = .error (.typeError "integrator must be str when allowed_values is provided") := rfl

/-! ### Character and list helper lemmas -/

theorem delim_not_ws {c : Char} (h : isDelimC c = true) : pyIsSpace c = false := by
  rcases Bool.or_eq_true_iff.1 h with h1 | h1 <;>
    simp only [decide_eq_true_eq] at h1 <;> subst h1 <;> decide

theorem digit_not_ws {c : Char} (h : c.isDigit = true) : pyIsSpace c = false := by
  simp only [Char.isDigit, Bool.and_eq_true, decide_eq_true_eq] at h
  simp only [pyIsSpace, Bool.or_eq_false_iff, decide_eq_false_iff_not]
  refine ⟨⟨⟨⟨⟨?_, ?_⟩, ?_⟩, ?_⟩, ?_⟩, ?_⟩ <;>
    intro hc <;> subst hc <;> revert h <;> decide

theorem takeWhile_append_all {p : Char → Bool} {a b : List Char}
    (h : ∀ c ∈ a, p c = true) :
    (a ++ b).takeWhile p = a ++ b.takeWhile p := by
  induction a with
  | nil => rfl
  | cons c t ih =>
    have hc := h c (List.mem_cons_self _ _)
    simp [List.takeWhile_cons, hc, ih fun x hx => h x (List.mem_cons_of_mem _ hx)]

theorem dropWhile_append_all {p : Char → Bool} {a b : List Char}
    (h : ∀ c ∈ a, p c = true) :
    (a ++ b).dropWhile p = b.dropWhile p := by
  induction a with
  | nil => rfl
  | cons c t ih =>
    have hc := h c (List.mem_cons_self _ _)
    simp [List.dropWhile_cons, hc, ih fun x hx => h x (List.mem_cons_of_mem _ hx)]

theorem dropWhile_append_head {p : Char → Bool} {a b : List Char}
    (h : a.dropWhile p ≠ []) :
    (a ++ b).dropWhile p = a.dropWhile p ++ b := by
  induction a with
  | nil => simp at h
  | cons c t ih =>
    by_cases hc : p c
    · simp only [List.dropWhile_cons_of_pos hc] at h
      simp [List.dropWhile_cons, hc, ih h]
    · simp [List.dropWhile_cons, hc]

theorem mem_takeWhile_sat {p : Char → Bool} {l : List Char} {c : Char}
    (h : c ∈ l.takeWhile p) : p c = true := by
  induction l with
  | nil => simp [List.takeWhile] at h
  | cons x t ih =>
    rw [List.takeWhile_cons] at h
    by_cases hx : p x
    · simp [hx] at h
      rcases h with h | h
      · exact h ▸ hx
      · exact ih h
    · simp [hx] at h

theorem mem_takeWhile_mem {p : Char → Bool} {l : List Char} {c : Char}
    (h : c ∈ l.takeWhile p) : c ∈ l := by
  induction l with
  | nil => simp [List.takeWhile] at h
  | cons x t ih =>
    rw [List.takeWhile_cons] at h
    by_cases hx : p x
    · simp [hx] at h
      rcases h with h | h
      · exact h ▸ List.mem_cons_self _ _
      · exact List.mem_cons_of_mem _ (ih h)
    · simp [hx] at h

theorem dropWhile_head_not {p : Char → Bool} {l : List Char} {c : Char}
    {t : List Char} (h : l.dropWhile p = c :: t) : p c = false := by
  induction l with
  | nil => simp [List.dropWhile] at h
  | cons x r ih =>
    rw [List.dropWhile_cons] at h
    by_cases hx : p x
    · simp [hx] at h
      exact ih h
    · simp [hx] at h
      exact h.1 ▸ Bool.of_not_eq_true hx

theorem dropWhile_nil_all {p : Char → Bool} {l : List Char}
    (h : l.dropWhile p = []) : ∀ c ∈ l, p c = true := by
  induction l with
  | nil => simp
  | cons x r ih =>
    by_cases hx : p x
    · rw [List.dropWhile_cons_of_pos hx] at h
      intro c hc
      rcases List.mem_cons.1 hc with hc | hc
      · exact hc ▸ hx
      · exact ih h c hc
    · rw [List.dropWhile_cons_of_neg hx] at h
      exact absurd h (by simp)

theorem dropWhile_all_nil {p : Char → Bool} {l : List Char}
    (h : ∀ c ∈ l, p c = true) : l.dropWhile p = [] := by
  induction l with
  | nil => rfl
  | cons x r ih =>
    simp [List.dropWhile_cons, h x (List.mem_cons_self _ _),
      ih fun c hc => h c (List.mem_cons_of_mem _ hc)]

/-! ### Lemmas about `partitionEqL` -/

theorem partitionEq_left_no_eq : ∀ l : List Char, '=' ∉ (partitionEqL l).1 := by
  intro l
  induction l with
  | nil => simp [partitionEqL]
  | cons c t ih =>
    by_cases hc : c = '='
    · simp [partitionEqL, hc]
    · simp only [partitionEqL, if_neg hc]
      intro h
      rcases List.mem_cons.1 h with h | h
      · exact hc h.symm
      · exact ih h

theorem partitionEq_decomp : ∀ l : List Char, (partitionEqL l).2.1 = true →
    l = (partitionEqL l).1 ++ '=' :: (partitionEqL l).2.2 := by
  intro l
  induction l with
  | nil => simp [partitionEqL]
  | cons c t ih =>
    by_cases hc : c = '='
    · subst hc; simp [partitionEqL]
    · simp only [partitionEqL, if_neg hc]
      intro h
      simpa [hc] using congrArg (c :: ·) (ih h)

theorem partitionEq_append {a b : List Char} (h : '=' ∉ a) :
    partitionEqL (a ++ '=' :: b) = (a, true, b) := by
  induction a with
  | nil => simp [partitionEqL]
  | cons c t ih =>
    have hc : ¬(c = '=') := fun hc => h (hc ▸ List.mem_cons_self _ _)
    have iht := ih fun hm => h (List.mem_cons_of_mem _ hm)
    simp only [List.cons_append, partitionEqL, if_neg hc]
    rw [show t.append ('=' :: b) = t ++ '=' :: b from rfl, iht]

/-! ### Lemmas about `split_inline_comment` -/

theorem splitComment_no_delim : ∀ l : List Char,
    ∀ c ∈ (split_inline_comment l).1, isDelimC c = false := by
  intro l
  induction l with
  | nil => simp [split_inline_comment]
  | cons x t ih =>
    by_cases hx : isDelimC x
    · simp [split_inline_comment, hx]
    · simp only [split_inline_comment, if_neg hx]
      intro c hc
      rcases List.mem_cons.1 hc with hc | hc
      · exact hc ▸ Bool.of_not_eq_true hx
      · exact ih c hc

theorem splitComment_decomp : ∀ l : List Char,
    l = (split_inline_comment l).1 ++ (split_inline_comment l).2 := by
  intro l
  induction l with
  | nil => rfl
  | cons x t ih =>
    by_cases hx : isDelimC x
    · simp [split_inline_comment, hx]
    · simp only [split_inline_comment, if_neg hx]
      simpa using congrArg (x :: ·) ih

theorem splitComment_head : ∀ l : List Char,
    (split_inline_comment l).2 = [] ∨
      ∃ c t, (split_inline_comment l).2 = c :: t ∧ isDelimC c = true := by
  intro l
  induction l with
  | nil => left; rfl
  | cons x t ih =>
    by_cases hx : isDelimC x
    · right; exact ⟨x, t, by simp [split_inline_comment, hx], hx⟩
    · simpa only [split_inline_comment, if_neg hx] using ih

theorem splitComment_append {a b : List Char}
    (ha : ∀ c ∈ a, isDelimC c = false)
    (hb : b = [] ∨ ∃ c t, b = c :: t ∧ isDelimC c = true) :
    split_inline_comment (a ++ b) = (a, b) := by
  induction a with
  | nil =>
    rcases hb with hb | ⟨c, t, hb, hc⟩
    · subst hb; rfl
    · subst hb; simp [split_inline_comment, hc]
  | cons x t ih =>
    have hx : ¬(isDelimC x = true) := by
      simp [ha x (List.mem_cons_self _ _)]
    have iht := ih fun c hc => ha c (List.mem_cons_of_mem _ hc)
    simp only [List.cons_append, split_inline_comment, if_neg hx]
    rw [show t.append b = t ++ b from rfl, iht]

/-! ### Lemmas about stripping -/

theorem dtws_cons (c : Char) (t : List Char) :
    dropTrailingWs (c :: t) =
      if (decide (dropTrailingWs t = []) && pyIsSpace c) = true then []
      else c :: dropTrailingWs t := rfl

theorem dtws_nil_of_all {l : List Char} (h : ∀ c ∈ l, pyIsSpace c = true) :
    dropTrailingWs l = [] := by
  induction l with
  | nil => rfl
  | cons c t ih =>
    rw [dtws_cons, ih fun x hx => h x (List.mem_cons_of_mem _ hx)]
    simp [h c (List.mem_cons_self _ _)]

theorem all_of_dtws_nil {l : List Char} (h : dropTrailingWs l = []) :
    ∀ c ∈ l, pyIsSpace c = true := by
  induction l with
  | nil => simp
  | cons c t ih =>
    rw [dtws_cons] at h
    by_cases hc : (decide (dropTrailingWs t = []) && pyIsSpace c) = true
    · simp only [Bool.and_eq_true, decide_eq_true_eq] at hc
      intro x hx
      rcases List.mem_cons.1 hx with hx | hx
      · exact hx ▸ hc.2
      · exact ih hc.1 x hx
    · rw [if_neg hc] at h
      exact absurd h (by simp)

theorem dtws_cons_cases (c : Char) (t : List Char) :
    dropTrailingWs (c :: t) = [] ∨ ∃ r, dropTrailingWs (c :: t) = c :: r := by
  rw [dtws_cons]
  by_cases h : (decide (dropTrailingWs t = []) && pyIsSpace c) = true
  · left; rw [if_pos h]
  · right; exact ⟨dropTrailingWs t, by rw [if_neg h]⟩

theorem dtws_append_ws {a b : List Char} (h : ∀ c ∈ b, pyIsSpace c = true) :
    dropTrailingWs (a ++ b) = dropTrailingWs a := by
  induction a with
  | nil => simpa using dtws_nil_of_all h
  | cons c t ih =>
    rw [List.cons_append, dtws_cons, ih, dtws_cons]

theorem dtws_idem : ∀ l : List Char,
    dropTrailingWs (dropTrailingWs l) = dropTrailingWs l := by
  intro l
  induction l with
  | nil => rfl
  | cons c t ih =>
    rw [dtws_cons]
    by_cases h : (decide (dropTrailingWs t = []) && pyIsSpace c) = true
    · rw [if_pos h]; rfl
    · rw [if_neg h, dtws_cons, ih, if_neg h]

theorem dtws_stripL (l : List Char) :
    dropTrailingWs (pyStripL l) = pyStripL l := by
  unfold pyStripL
  exact dtws_idem _

theorem stripL_head (l : List Char) :
    pyStripL l = [] ∨ ∃ c t, pyStripL l = c :: t ∧ pyIsSpace c = false := by
  unfold pyStripL
  rcases hd : l.dropWhile pyIsSpace with _ | ⟨c, t⟩
  · left; rfl
  · have hc : pyIsSpace c = false := dropWhile_head_not hd
    rcases dtws_cons_cases c t with h | ⟨r, h⟩
    · left; exact h
    · right; exact ⟨c, r, h, hc⟩

theorem stripL_idem (l : List Char) : pyStripL (pyStripL l) = pyStripL l := by
  rcases stripL_head l with h | ⟨c, t, h, hc⟩
  · rw [h]; rfl
  · rw [h]
    unfold pyStripL
    rw [List.dropWhile_cons_of_neg (by simp [hc])]
    have h2 : dropTrailingWs (c :: t) = c :: t := by
      have h3 := dtws_stripL l
      rw [h] at h3
      exact h3
    exact h2

theorem stripL_append_ws {l b : List Char} (h : ∀ c ∈ b, pyIsSpace c = true) :
    pyStripL (pyStripL l ++ b) = pyStripL l := by
  rcases stripL_head l with h0 | ⟨c, t, h0, hc⟩
  · rw [h0, List.nil_append]
    unfold pyStripL
    rw [dropWhile_all_nil h]
    rfl
  · rw [h0]
    unfold pyStripL
    rw [List.cons_append, List.dropWhile_cons_of_neg (by simp [hc]),
      ← List.cons_append, dtws_append_ws h]
    have h2 : dropTrailingWs (c :: t) = c :: t := by
      have h3 := dtws_stripL l
      rw [h0] at h3
      exact h3
    rw [h2, ← h0]

/-! ### The formatted value never starts with whitespace -/

theorem natDigitsAux_all_digit :
    ∀ fuel n, ∀ c ∈ natDigitsAux fuel n, c.isDigit = true := by
  intro fuel
  induction fuel with
  | zero => intro n c hc; simp [natDigitsAux] at hc
  | succ f ih =>
    intro n c hc
    rw [natDigitsAux] at hc
    by_cases hn : n < 10
    · rw [if_pos hn] at hc
      simp only [List.mem_singleton] at hc
      subst hc
      interval_cases n <;> decide
    · rw [if_neg hn] at hc
      rcases List.mem_append.1 hc with hc | hc
      · exact ih _ c hc
      · simp only [List.mem_singleton] at hc
        subst hc
        have hm : n % 10 < 10 := Nat.mod_lt _ (by norm_num)
        set m := n % 10 with hmdef
        clear_value m
        interval_cases m <;> decide

theorem natDigitsAux_ne_nil (fuel n : Nat) : natDigitsAux (fuel + 1) n ≠ [] := by
  rw [natDigitsAux]
  by_cases hn : n < 10
  · simp [hn]
  · rw [if_neg hn]
    simp

theorem natStr_all_digit (n : Nat) : ∀ c ∈ natStr n, c.isDigit = true :=
  natDigitsAux_all_digit (n + 1) n

theorem natStr_ne_nil (n : Nat) : natStr n ≠ [] :=
  natDigitsAux_ne_nil n n

theorem takeWhile_ws_nil_of_digits {l : List Char} (hne : l ≠ [])
    (hd : ∀ c ∈ l, c.isDigit = true) : l.takeWhile pyIsSpace = [] := by
  rcases l with _ | ⟨c, t⟩
  · exact absurd rfl hne
  · exact List.takeWhile_cons_of_neg
      (by simp [digit_not_ws (hd c (List.mem_cons_self _ _))])

theorem decDigitsPad_all_digit (m k : Nat) :
    ∀ c ∈ decDigitsPad m k, c.isDigit = true := by
  intro c hc
  unfold decDigitsPad at hc
  rcases List.mem_append.1 hc with hc | hc
  · rw [List.eq_of_mem_replicate hc]; decide
  · exact natStr_all_digit m c hc

theorem decDigitsPad_length (m k : Nat) : k + 1 ≤ (decDigitsPad m k).length := by
  unfold decDigitsPad
  rw [List.length_append, List.length_replicate]
  omega

theorem decStr_takeWhile_ws (mant exp10 : Int) :
    (decStr mant exp10).takeWhile pyIsSpace = [] := by
  unfold decStr
  set p := stripZerosAux mant.natAbs mant exp10 with hp
  by_cases hm : p.1 = 0
  · rw [if_pos hm]; decide
  · rw [if_neg hm]
    have hbody : ∀ body : List Char, body ≠ [] →
        (∀ c ∈ body, c.isDigit = true ∨ c = '.') →
        ((if p.1 < 0 then '-' :: body else body).takeWhile pyIsSpace = []) := by
      intro body hne hall
      rcases body with _ | ⟨c, t⟩
      · exact absurd rfl hne
      · have hcws : pyIsSpace c = false := by
          rcases hall c (List.mem_cons_self _ _) with h | h
          · exact digit_not_ws h
          · subst h; decide
        by_cases hneg : p.1 < 0
        · rw [if_pos hneg]
          exact List.takeWhile_cons_of_neg (by decide)
        · rw [if_neg hneg]
          exact List.takeWhile_cons_of_neg (by simp [hcws])
    by_cases he : 0 ≤ p.2
    · rw [if_pos he]
      apply hbody
      · simp [natStr_ne_nil]
      · intro c hc
        rcases List.mem_append.1 hc with hc | hc
        · rcases List.mem_append.1 hc with hc | hc
          · exact Or.inl (natStr_all_digit _ c hc)
          · rw [List.eq_of_mem_replicate hc]; left; decide
        · simp only [List.mem_cons, List.mem_singleton, List.not_mem_nil,
            or_false] at hc
          rcases hc with hc | hc
          · right; exact hc
          · left; subst hc; decide
    · rw [if_neg he]
      apply hbody
      · have hlen := decDigitsPad_length p.1.natAbs (-p.2).toNat
        rcases hds : decDigitsPad p.1.natAbs (-p.2).toNat with _ | ⟨d, t⟩
        · rw [hds] at hlen; simp at hlen
        · rw [hds] at hlen
          rcases hj : (d :: t).length - (-p.2).toNat with _ | j
          · exfalso; omega
          · rw [List.take_succ_cons]
            simp
      · intro c hc
        rcases List.mem_append.1 hc with hc | hc
        · exact Or.inl (decDigitsPad_all_digit _ _ c (List.take_subset _ _ hc))
        · simp only [List.mem_cons] at hc
          rcases hc with hc | hc
          · right; exact hc
          · exact Or.inl (decDigitsPad_all_digit _ _ c (List.drop_subset _ _ hc))

theorem stripS_takeWhile_ws (s : String) :
    (pyStripS s).data.takeWhile pyIsSpace = [] := by
  show (pyStripL s.data).takeWhile pyIsSpace = []
  rcases stripL_head s.data with h | ⟨c, t, h, hc⟩
  · rw [h]; rfl
  · rw [h]
    exact List.takeWhile_cons_of_neg (by simp [hc])

/-- The output of the Value Formatter never begins with whitespace. -/
theorem format_no_lead_ws {v : PyVal} {s : String}
    (h : format_gmx_value v = .ok s) :
    s.data.takeWhile pyIsSpace = [] := by
  cases v with
  | bool b =>
    cases b <;> · simp only [format_gmx_value, Except.ok.injEq] at h
                  subst h; decide
  | int n =>
    simp only [format_gmx_value, Except.ok.injEq] at h
    subst h
    cases n with
    | ofNat m =>
      exact takeWhile_ws_nil_of_digits (natStr_ne_nil m) (natStr_all_digit m)
    | negSucc m =>
      exact List.takeWhile_cons_of_neg (by decide)
  | float m e =>
    simp only [format_gmx_value, Except.ok.injEq] at h
    subst h
    exact decStr_takeWhile_ws m e
  | str s' =>
    simp only [format_gmx_value, Except.ok.injEq] at h
    subst h
    exact stripS_takeWhile_ws s'
  | enum s' =>
    simp only [format_gmx_value, Except.ok.injEq] at h
    subst h
    exact stripS_takeWhile_ws s'
  | other t =>
    simp [format_gmx_value] at h

/-! ### Editor lemmas -/

theorem ws_not_delim {c : Char} (h : pyIsSpace c = true) : isDelimC c = false := by
  cases hd : isDelimC c
  · rfl
  · rw [delim_not_ws hd] at h
    exact absurd h (by simp)

/-- A line of the shape `left ++ "=" ++ rest` whose stripped left part is a
non-comment-starting key is never classified as a blank/comment line. -/
theorem is_comment_rebuilt {left rest w : List Char}
    (hstrip : pyStripL left = w) (hw : startsCommentL w = false) :
    is_comment (String.mk (left ++ '=' :: rest)) = false := by
  unfold is_comment
  show (match (left ++ '=' :: rest).dropWhile pyIsSpace with
    | [] => true
    | c :: _ => c = '#' || c = ';') = false
  rcases hdl : left.dropWhile pyIsSpace with _ | ⟨c, t⟩
  · rw [dropWhile_append_all (dropWhile_nil_all hdl),
      List.dropWhile_cons_of_neg (by decide)]
    rfl
  · rw [dropWhile_append_head (by rw [hdl]; simp)]
    rw [hdl]
    have hw2 : pyStripL left = dropTrailingWs (c :: t) := by
      unfold pyStripL
      rw [hdl]
    rcases dtws_cons_cases c t with hc | ⟨r, hc⟩
    · exfalso
      have hcws : pyIsSpace c = false := dropWhile_head_not hdl
      have h3 := all_of_dtws_nil hc c (List.mem_cons_self _ _)
      rw [h3] at hcws
      exact absurd hcws (by simp)
    · rw [hstrip, hc] at hw2
      rw [List.cons_append]
      rw [hw2] at hw
      exact hw

/-- A line of the shape `left ++ "=" ++ rest` with `=`-free `left` whose
stripped left part is the wanted key matches the scan condition. -/
theorem matchesKey_rebuilt {left rest w : List Char}
    (hleft : '=' ∉ left) (hstrip : pyStripL left = w)
    (hw : startsCommentL w = false) :
    matchesKey w (String.mk (left ++ '=' :: rest)) = true := by
  unfold matchesKey
  rw [if_neg (by rw [is_comment_rebuilt hstrip hw]; simp)]
  show (match partitionEqL (left ++ '=' :: rest) with
    | (l, true, _) => pyStripL l == w
    | (_, false, _) => false) = true
  rw [partitionEq_append hleft]
  simp [hstrip]

/-- Unfolding equation for `rewriteLine` on a line with a known partition. -/
theorem rewriteLine_eq {l : String} {left right : List Char}
    (hp : partitionEqL l.data = (left, true, right)) (mdp : List Char) :
    rewriteLine l mdp = String.mk (left ++ '=' ::
      (leading_ws (split_inline_comment right).1 ++ mdp ++
        (split_inline_comment right).2)) := by
  unfold rewriteLine
  rw [hp]

/-- Rewriting a line of the already-rewritten shape
`left ++ "=" ++ lead ++ mdp ++ com` reproduces the line verbatim. -/
theorem rewriteLine_rebuilt {left lead mdp com : List Char}
    (hleft : '=' ∉ left)
    (hlead : ∀ c ∈ lead, pyIsSpace c = true)
    (hmdp1 : ∀ c ∈ mdp, isDelimC c = false)
    (hmdp2 : mdp.takeWhile pyIsSpace = [])
    (hcom : com = [] ∨ ∃ c t, com = c :: t ∧ isDelimC c = true) :
    rewriteLine (String.mk (left ++ '=' :: (lead ++ mdp ++ com))) mdp
      = String.mk (left ++ '=' :: (lead ++ mdp ++ com)) := by
  have hp : partitionEqL (String.mk (left ++ '=' :: (lead ++ mdp ++ com))).data
      = (left, true, lead ++ mdp ++ com) := partitionEq_append hleft
  rw [rewriteLine_eq hp]
  have hsc : split_inline_comment (lead ++ mdp ++ com) = (lead ++ mdp, com) := by
    rw [List.append_assoc]
    rw [show (lead ++ (mdp ++ com)) = (lead ++ mdp) ++ com from by
      rw [List.append_assoc]]
    exact splitComment_append
      (fun c hc => by
        rcases List.mem_append.1 hc with hc | hc
        · exact ws_not_delim (hlead c hc)
        · exact hmdp1 c hc)
      hcom
  rw [hsc]
  show String.mk (left ++ '=' :: (leading_ws (lead ++ mdp) ++ mdp ++ com)) = _
  unfold leading_ws
  rw [takeWhile_append_all hlead, hmdp2, List.append_nil]

/-- The appended line regrouped into the `left ++ "=" ++ rest` shape. -/
theorem appendLine_decomp (w mdp : List Char) :
    appendLine w mdp
      = String.mk ((w ++ (List.replicate (28 - w.length) ' ' ++ [' '])) ++
          '=' :: ([' '] ++ mdp ++ [])) := by
  unfold appendLine ljustL
  simp

/-- Eliminate the match condition: a matched line is not a comment, has a
separator, and its stripped left part is the wanted key. -/
theorem matchesKey_elim {w : List Char} {l : String}
    (h : matchesKey w l = true) :
    is_comment l = false ∧ (partitionEqL l.data).2.1 = true ∧
      pyStripL (partitionEqL l.data).1 = w := by
  unfold matchesKey at h
  by_cases hc : is_comment l
  · rw [if_pos hc] at h
    exact absurd h (by simp)
  · rw [if_neg hc] at h
    have hc2 : is_comment l = false := by
      simp only [Bool.not_eq_true] at hc
      exact hc
    rcases hp : partitionEqL l.data with ⟨left, fl, right⟩
    rw [hp] at h
    cases fl
    · exact absurd h (by simp)
    · refine ⟨hc2, rfl, ?_⟩
      simpa using h

/-- Rewriting a matched line yields a line that still matches and that a
second rewrite with the same value leaves unchanged (provided the
formatted value contains no comment delimiter and no leading whitespace,
and the key does not begin a comment). -/
theorem rewrite_stable {w mdp : List Char} {l : String}
    (hm : matchesKey w l = true)
    (hwc : startsCommentL w = false)
    (hmdp1 : ∀ c ∈ mdp, isDelimC c = false)
    (hmdp2 : mdp.takeWhile pyIsSpace = []) :
    matchesKey w (rewriteLine l mdp) = true ∧
      rewriteLine (rewriteLine l mdp) mdp = rewriteLine l mdp := by
  obtain ⟨hcom, hsep, hstr⟩ := matchesKey_elim hm
  rcases hp : partitionEqL l.data with ⟨left, fl, right⟩
  rw [hp] at hsep hstr
  simp only at hsep hstr
  cases fl
  · exact absurd hsep (by simp)
  · have hnol : '=' ∉ left := by
      have h2 := partitionEq_left_no_eq l.data
      rw [hp] at h2
      exact h2
    have hrl := rewriteLine_eq hp mdp
    have hlead : ∀ c ∈ leading_ws (split_inline_comment right).1, pyIsSpace c = true :=
      fun c hc => mem_takeWhile_sat hc
    constructor
    · rw [hrl]
      exact matchesKey_rebuilt hnol hstr hwc
    · rw [hrl]
      exact rewriteLine_rebuilt hnol hlead hmdp1 hmdp2 (splitComment_head right)

/-- The appended line matches the scan condition and a rewrite with the
same value leaves it unchanged (under the same side conditions, plus the
key being its own stripped form and containing no `=`). -/
theorem append_stable {w mdp : List Char}
    (hws : pyStripL w = w) (hwEq : '=' ∉ w) (hwc : startsCommentL w = false)
    (hmdp1 : ∀ c ∈ mdp, isDelimC c = false)
    (hmdp2 : mdp.takeWhile pyIsSpace = []) :
    matchesKey w (appendLine w mdp) = true ∧
      rewriteLine (appendLine w mdp) mdp = appendLine w mdp := by
  have hall : ∀ c ∈ List.replicate (28 - w.length) ' ' ++ [' '], pyIsSpace c = true := by
    intro c hc
    rcases List.mem_append.1 hc with hc | hc
    · rw [List.eq_of_mem_replicate hc]; decide
    · simp only [List.mem_singleton] at hc; subst hc; decide
  have hleft : '=' ∉ w ++ (List.replicate (28 - w.length) ' ' ++ [' ']) := by
    intro hmem
    rcases List.mem_append.1 hmem with hmem | hmem
    · exact hwEq hmem
    · have h2 := hall '=' hmem
      exact absurd h2 (by decide)
  have hstrip : pyStripL (w ++ (List.replicate (28 - w.length) ' ' ++ [' '])) = w := by
    calc pyStripL (w ++ (List.replicate (28 - w.length) ' ' ++ [' ']))
        = pyStripL (pyStripL w ++ (List.replicate (28 - w.length) ' ' ++ [' '])) := by
          rw [hws]
      _ = pyStripL w := stripL_append_ws hall
      _ = w := hws
  constructor
  · rw [appendLine_decomp]
    exact matchesKey_rebuilt hleft hstrip hwc
  · rw [appendLine_decomp]
    exact rewriteLine_rebuilt hleft
      (by intro c hc; simp only [List.mem_singleton] at hc; subst hc; decide)
      hmdp1 hmdp2 (Or.inl rfl)

/-- Applying the scan loop twice with the same key and value is the same
as applying it once. -/
theorem set_go_idem {w mdp : List Char}
    (hws : pyStripL w = w) (hwEq : '=' ∉ w) (hwc : startsCommentL w = false)
    (hmdp1 : ∀ c ∈ mdp, isDelimC c = false)
    (hmdp2 : mdp.takeWhile pyIsSpace = []) :
    ∀ lines, set_mdp_go w mdp (set_mdp_go w mdp lines) = set_mdp_go w mdp lines := by
  intro lines
  induction lines with
  | nil =>
    have h := append_stable hws hwEq hwc hmdp1 hmdp2
    simp [set_mdp_go, h.1, h.2]
  | cons l ls ih =>
    by_cases hm : matchesKey w l
    · have h := rewrite_stable hm hwc hmdp1 hmdp2
      simp [set_mdp_go, hm, h.1, h.2]
    · simp only [set_mdp_go, if_neg hm]
      rw [ih]

/-- When no line matches, the scan loop appends the aligned line. -/
theorem set_go_no_match {w mdp : List Char} :
    ∀ lines : List String, (∀ l ∈ lines, matchesKey w l = false) →
      set_mdp_go w mdp lines = lines ++ [appendLine w mdp] := by
  intro lines
  induction lines with
  | nil => intro _; rfl
  | cons l ls ih =>
    intro h
    have hl : matchesKey w l = false := h l (List.mem_cons_self _ _)
    simp only [set_mdp_go, hl, Bool.false_eq_true, if_false, List.cons_append,
      List.cons.injEq, true_and]
    exact ih fun x hx => h x (List.mem_cons_of_mem _ hx)

/-- Frame property of the scan loop: every position other than the first
match (with `findIdx` returning the length when there is no match) holds
the same line before and after. -/
theorem set_go_frame {w mdp : List Char} :
    ∀ (lines : List String) (j : Nat), j < lines.length →
      j ≠ lines.findIdx (matchesKey w) →
      (set_mdp_go w mdp lines)[j]? = lines[j]? := by
  intro lines
  induction lines with
  | nil => intro j hj _; simp at hj
  | cons l ls ih =>
    intro j hj hne
    by_cases hm : matchesKey w l
    · rw [List.findIdx_cons] at hne
      simp only [hm, cond_true] at hne
      rcases j with _ | j2
      · exact absurd rfl hne
      · simp [set_mdp_go, hm]
    · rw [List.findIdx_cons] at hne
      simp only [hm, cond_false] at hne
      rcases j with _ | j2
      · simp [set_mdp_go, hm]
      · simp only [set_mdp_go, hm, Bool.false_eq_true, if_false,
          List.getElem?_cons_succ]
        exact ih j2 (by simpa using hj) (fun hh => hne (by rw [hh]))

example : format_gmx_value (.int 1000) = .ok "1000" := rfl
example : format_gmx_value (.int (-42)) = .ok "-42" := rfl
example : format_gmx_value (.float 1 (-3)) = .ok "0.001" := rfl
example : format_gmx_value (.float 5 (-4)) = .ok "0.0005" := rfl
example : format_gmx_value (.float 1 2) = .ok "100.0" := rfl
example : format_gmx_value (.float 1000 (-1)) = .ok "100.0" := rfl
example : format_gmx_value (.float (-25) (-1)) = .ok "-2.5" := rfl
example : format_gmx_value (.str "  hi  ") = .ok "hi" := rfl
example : format_gmx_value (.bool true) = .ok "yes" := rfl

/-! ### Claim theorems -/

/-- Case-insensitive lookup in an allowed-values collection whose members
have pairwise distinct lowercasings finds exactly the matching member
(hence the result is independent of the iteration order of the Python
set the source uses). -/
theorem find_lower_unique {allowed : List String} {target : String}
    (hdist : allowed.Pairwise (fun a b => pyLowerS a ≠ pyLowerS b))
    {a : String} (ha : a ∈ allowed) (hm : pyLowerS a = target) :
    allowed.find? (fun x => pyLowerS x == target) = some a := by
  induction allowed with
  | nil => simp at ha
  | cons x rest ih =>
    rcases List.pairwise_cons.1 hdist with ⟨hx, hrest⟩
    rcases List.mem_cons.1 ha with ha | ha
    · subst ha
      rw [List.find?_cons_of_pos _ (by simp [hm])]
    · have hxne : pyLowerS x ≠ target := fun hEq => hx a ha (hEq.trans hm.symm)
      rw [List.find?_cons_of_neg _ (by simp [hxne])]
      exact ih hrest ha

/-- C1 (counterexample): on the buffer line
`nstlog    = 500   ; log frequency`, setting `nstlog` to `1000` does NOT
produce the claimed line `nstlog    =   1000   ; log frequency`; the code
produces `nstlog    = 1000; log frequency` — the whitespace between the
old value and the comment delimiter belongs to the value region and is
dropped, and the preserved leading whitespace is the single space that
preceded `500`. -/
theorem comment_whitespace_cex :
    set_mdp_key ["nstlog    = 500   ; log frequency"] "nstlog" (.int 1000)
      = .ok ["nstlog    = 1000; log frequency"] ∧
    (["nstlog    = 1000; log frequency"] : List String)
      ≠ ["nstlog    =   1000   ; log frequency"] :=
  ⟨rfl, by decide⟩

/-- C1 (amended): on the buffer line `nstlog    = 500   ; log frequency`,
setting `nstlog` to `1000` produces exactly
`nstlog    = 1000; log frequency`: the left-hand key text (with its
trailing whitespace before `=`) and the leading whitespace that preceded
the old value are reproduced verbatim, the inline comment is reproduced
verbatim from its delimiter onward, and the whitespace between the old
value and the delimiter is dropped. -/
theorem comment_whitespace_amended :
    set_mdp_key ["nstlog    = 500   ; log frequency"] "nstlog" (.int 1000)
      = .ok ["nstlog    = 1000; log frequency"] ∧
    "nstlog    = 1000; log frequency"
      = String.mk ("nstlog    ".data ++ '=' ::
          (" ".data ++ "1000".data ++ "; log frequency".data)) :=
  ⟨rfl, by decide⟩

/-- C2: `set_mdp_key` modifies at most the first matching line: every
position other than the index of the first assignment line whose stripped
left-hand side equals the stripped key (`findIdx` returning the length
when no line matches) holds a byte-identical line after the call; on
`["dt = 0.002", "dt = 0.004"]`, setting `dt` to `0.001` changes only the
first line. -/
theorem set_key_frame :
    (∀ (lines : List String) (key : String) (v : PyVal) (out : List String),
        set_mdp_key lines key v = .ok out →
        ∀ j : Nat, j < lines.length →
          j ≠ lines.findIdx (matchesKey (pyStripL key.data)) →
          out[j]? = lines[j]?) ∧
    set_mdp_key ["dt = 0.002", "dt = 0.004"] "dt" (.float 1 (-3))
      = .ok ["dt = 0.001", "dt = 0.004"] := by
  constructor
  · intro lines key v out hset j hj hne
    unfold set_mdp_key at hset
    cases hf : format_gmx_value v with
    | error e => rw [hf] at hset; cases hset
    | ok mdp =>
      rw [hf] at hset
      simp only [Except.ok.injEq] at hset
      subst hset
      exact set_go_frame lines j hj hne
  · rfl

/-- Witness for C2 at the concrete dt example: line 1 is untouched. -/
theorem set_key_frame_witness :
    (["dt = 0.001", "dt = 0.004"] : List String)[1]?
      = (["dt = 0.002", "dt = 0.004"] : List String)[1]? :=
  set_key_frame.1 ["dt = 0.002", "dt = 0.004"] "dt" (.float 1 (-3))
    ["dt = 0.001", "dt = 0.004"] set_key_frame.2 1 (by decide) (by decide)

/-- C3: when no line of the buffer matches the stripped key,
`set_mdp_key` appends exactly one line, the stripped key left-justified
to 28 characters followed by `" = "` and the formatted value; setting the
absent key `new-key` to `42` appends
`new-key                      = 42`. -/
theorem append_on_miss :
    (∀ (lines : List String) (key : String) (v : PyVal) (mdp : String),
        format_gmx_value v = .ok mdp →
        (∀ l ∈ lines, matchesKey (pyStripL key.data) l = false) →
        set_mdp_key lines key v
          = .ok (lines ++ [appendLine (pyStripL key.data) mdp.data])) ∧
    set_mdp_key [] "new-key" (.int 42)
      = .ok ["new-key                      = 42"] := by
  constructor
  · intro lines key v mdp hf hno
    unfold set_mdp_key
    rw [hf]
    show Except.ok (set_mdp_go (pyStripL key.data) mdp.data lines) = _
    rw [set_go_no_match lines hno]
  · rfl

/-- Witness for C3: appending `new-key = 42` to a one-line buffer. -/
theorem append_on_miss_witness :
    set_mdp_key ["dt = 0.002"] "new-key" (.int 42)
      = .ok ["dt = 0.002", "new-key                      = 42"] :=
  append_on_miss.1 ["dt = 0.002"] "new-key" (.int 42) "42" rfl (by decide)

/-- C4 (counterexample to idempotence for every supported value): with the
string value `v;c` (whose formatted text contains the comment delimiter
`;`), a second identical `set_mdp_key` call changes the buffer again: the
rewritten value region is re-split at the `;` and the tail is duplicated. -/
theorem set_key_idem_cex :
    set_mdp_key [] "k" (.str "v;c")
      = .ok ["k                            = v;c"] ∧
    set_mdp_key ["k                            = v;c"] "k" (.str "v;c")
      = .ok ["k                            = v;c;c"] ∧
    (["k                            = v;c;c"] : List String)
      ≠ ["k                            = v;c"] :=
  ⟨rfl, rfl, by decide⟩

/-- C4 (amended): repeated identical sets are idempotent provided the
formatted value contains no comment delimiter (`;`/`#`) and the stripped
key contains no `=` and does not begin with a comment delimiter (the
spec's example `set_key(buffer, "nsteps", 100)` satisfies all three). -/
theorem set_key_idem :
    ∀ (lines : List String) (key : String) (v : PyVal) (out : List String)
      (mdp : String),
      format_gmx_value v = .ok mdp →
      (∀ c ∈ mdp.data, isDelimC c = false) →
      '=' ∉ pyStripL key.data →
      startsCommentL (pyStripL key.data) = false →
      set_mdp_key lines key v = .ok out →
      set_mdp_key out key v = .ok out := by
  intro lines key v out mdp hf hd he hs hset
  unfold set_mdp_key at hset ⊢
  rw [hf] at hset ⊢
  simp only [Except.ok.injEq] at hset
  subst hset
  exact congrArg Except.ok
    (set_go_idem (stripL_idem key.data) he hs hd (format_no_lead_ws hf) lines)

/-- Witness for C4 at the spec's example (`nsteps`, integer `100`). -/
theorem set_key_idem_witness :
    set_mdp_key ["nsteps = 100"] "nsteps" (.int 100) = .ok ["nsteps = 100"] :=
  set_key_idem ["nsteps = 500"] "nsteps" (.int 100) ["nsteps = 100"] "100"
    rfl (by decide) (by decide) (by decide) rfl

/-- Unfolding equation for `set_parameter` on a string value with an
allowed-values collection. -/
theorem set_parameter_str_eq (ps : List (String × PyVal)) (param cand : String)
    (allowed : List String) :
    set_parameter ps param (.str cand) (some allowed)
      = match allowed.find? (fun a => pyLowerS a == pyLowerS (pyStripS cand)) with
        | some canonical => .ok (dictInsert ps (pyStripS param) (.str canonical))
        | none => .error (.invalidValue (pyStripS param) cand) := rfl

/-- C5: for every validated setter (allowed-values collection with pairwise
distinct lowercasings — true of every Option Enumeration of the
repository, see the final conjuncts): a string candidate succeeds iff its
stripped form matches some member case-insensitively; on success the
pending parameter state records that member's exact declared casing; on
failure the call raises `ValueError` (InvalidEnumValue); a non-string,
non-enumeration value raises `TypeError` (TypeMismatch).
`set_integrator("MD")` records `"md"`; `"bogus"` is rejected. -/
theorem setter_enum_validation :
    (∀ (ps : List (String × PyVal)) (param cand : String) (allowed : List String),
        allowed.Pairwise (fun a b => pyLowerS a ≠ pyLowerS b) →
        ((∃ r, set_parameter ps param (.str cand) (some allowed) = .ok r) ↔
            ∃ a ∈ allowed, pyLowerS a = pyLowerS (pyStripS cand)) ∧
        (∀ a ∈ allowed, pyLowerS a = pyLowerS (pyStripS cand) →
            set_parameter ps param (.str cand) (some allowed)
              = .ok (dictInsert ps (pyStripS param) (.str a))) ∧
        ((∀ a ∈ allowed, pyLowerS a ≠ pyLowerS (pyStripS cand)) →
            set_parameter ps param (.str cand) (some allowed)
              = .error (.invalidValue (pyStripS param) cand))) ∧
    (∀ (ps : List (String × PyVal)) (param : String) (allowed : List String),
        (∀ b : Bool, set_parameter ps param (.bool b) (some allowed)
            = .error (.typeError
                (pyStripS param ++ " must be str when allowed_values is provided"))) ∧
        (∀ n : Int, set_parameter ps param (.int n) (some allowed)
            = .error (.typeError
                (pyStripS param ++ " must be str when allowed_values is provided"))) ∧
        (∀ m e : Int, set_parameter ps param (.float m e) (some allowed)
            = .error (.typeError
                (pyStripS param ++ " must be str when allowed_values is provided"))) ∧
        (∀ t : String, set_parameter ps param (.other t) (some allowed)
            = .error (.typeError
                (pyStripS param ++ " must be str when allowed_values is provided")))) ∧
    (∀ s : String, ∀ ps param allowed,
        set_parameter ps param (.enum s) allowed
          = set_parameter ps param (.str s) allowed) ∧
    integratorValues.Pairwise (fun a b => pyLowerS a ≠ pyLowerS b) ∧
    commModeValues.Pairwise (fun a b => pyLowerS a ≠ pyLowerS b) ∧
    nghCutoffSchemeValues.Pairwise (fun a b => pyLowerS a ≠ pyLowerS b) ∧
    coulombTypeValues.Pairwise (fun a b => pyLowerS a ≠ pyLowerS b) ∧
    coulombModifierValues.Pairwise (fun a b => pyLowerS a ≠ pyLowerS b) ∧
    vdwTypeValues.Pairwise (fun a b => pyLowerS a ≠ pyLowerS b) ∧
    vdwModifierValues.Pairwise (fun a b => pyLowerS a ≠ pyLowerS b) ∧
    dispCorrValues.Pairwise (fun a b => pyLowerS a ≠ pyLowerS b) ∧
    barostatValues.Pairwise (fun a b => pyLowerS a ≠ pyLowerS b) ∧
    constraintsAlgorithmsValues.Pairwise (fun a b => pyLowerS a ≠ pyLowerS b) ∧
    pbcValues.Pairwise (fun a b => pyLowerS a ≠ pyLowerS b) ∧
    set_parameter [] "integrator" (.str "MD") (some integratorValues)
      = .ok [("integrator", .str "md")] ∧
    set_parameter [] "integrator" (.str "bogus") (some integratorValues)
      = .error (.invalidValue "integrator" "bogus") := by
  refine ⟨?_, ?_, fun s ps param allowed => rfl,
    by decide, by decide, by decide, by decide, by decide, by decide, by decide,
    by decide, by decide, by decide, by decide, rfl, rfl⟩
  · intro ps param cand allowed hdist
    refine ⟨?_, ?_, ?_⟩
    · constructor
      · rintro ⟨r, hr⟩
        rw [set_parameter_str_eq] at hr
        cases hfind : allowed.find? (fun a => pyLowerS a == pyLowerS (pyStripS cand)) with
        | none => rw [hfind] at hr; cases hr
        | some c =>
          have hc := List.find?_some hfind
          simp only [beq_iff_eq] at hc
          exact ⟨c, List.mem_of_find?_eq_some hfind, hc⟩
      · rintro ⟨a, ha, hm⟩
        refine ⟨dictInsert ps (pyStripS param) (.str a), ?_⟩
        rw [set_parameter_str_eq, find_lower_unique hdist ha hm]
    · intro a ha hm
      rw [set_parameter_str_eq, find_lower_unique hdist ha hm]
    · intro hnone
      rw [set_parameter_str_eq,
        List.find?_eq_none.2 (fun a ha => by simp [hnone a ha])]
  · intro ps param allowed
    exact ⟨fun b => rfl, fun n => rfl, fun m e => rfl, fun t => rfl⟩

/-- Witness for C5: `set_integrator("MD")` records the canonical `"md"`. -/
theorem setter_enum_validation_witness :
    set_parameter [] "integrator" (.str "MD") (some integratorValues)
      = .ok [("integrator", PyVal.str "md")] :=
  (setter_enum_validation.1 [] "integrator" "MD" integratorValues (by decide)).2.1
    "md" (by decide) (by decide)

/-- C6: override-file value parsing follows the exact precedence of
`_parse_value`: case-insensitive `yes`/`true`/`on` parse to boolean true
and `no`/`false`/`off` to boolean false; otherwise, when the stripped
text contains `.`, `e` or `E` a float parse is attempted, else an integer
parse; when the attempted numeric parse fails the stripped text itself is
returned as a string.  `"0.001"` parses to the float `0.001`, `"100"` to
the integer `100`, `"md"` to the string `"md"`. -/
theorem override_value_typing :
    (∀ raw : String,
        ((pyLowerS (pyStripS raw) = "yes" ∨ pyLowerS (pyStripS raw) = "true" ∨
            pyLowerS (pyStripS raw) = "on") → parse_value raw = .bool true) ∧
        ((pyLowerS (pyStripS raw) = "no" ∨ pyLowerS (pyStripS raw) = "false" ∨
            pyLowerS (pyStripS raw) = "off") → parse_value raw = .bool false) ∧
        (pyLowerS (pyStripS raw) ≠ "yes" → pyLowerS (pyStripS raw) ≠ "true" →
          pyLowerS (pyStripS raw) ≠ "on" → pyLowerS (pyStripS raw) ≠ "no" →
          pyLowerS (pyStripS raw) ≠ "false" → pyLowerS (pyStripS raw) ≠ "off" →
          (((pyStripS raw).data.any (fun c => c = '.' || c = 'e' || c = 'E') = true →
              (∀ m e : Int, pyFloatOfString (pyStripS raw).data = some (m, e) →
                  parse_value raw = .float m e) ∧
              (pyFloatOfString (pyStripS raw).data = none →
                  parse_value raw = .str (pyStripS raw))) ∧
            ((pyStripS raw).data.any (fun c => c = '.' || c = 'e' || c = 'E') = false →
              (∀ n : Int, pyIntOfString (pyStripS raw).data = some n →
                  parse_value raw = .int n) ∧
              (pyIntOfString (pyStripS raw).data = none →
                  parse_value raw = .str (pyStripS raw)))))) ∧
    parse_value "0.001" = .float 1 (-3) ∧
    parse_value "100" = .int 100 ∧
    parse_value "md" = .str "md" ∧
    parse_value "yes" = .bool true ∧
    parse_value "off" = .bool false := by
  refine ⟨fun raw => ⟨?_, ?_, ?_⟩, by decide, by decide, by decide, by decide, by decide⟩
  · intro h
    rcases h with h | h | h <;> simp [parse_value, h]
  · intro h
    rcases h with h | h | h <;> simp [parse_value, h]
  · intro h1 h2 h3 h4 h5 h6
    constructor
    · intro hany
      constructor
      · intro m e hp
        simp [parse_value, h1, h2, h3, h4, h5, h6, hany, hp]
      · intro hp
        simp [parse_value, h1, h2, h3, h4, h5, h6, hany, hp]
    · intro hany
      constructor
      · intro n hp
        simp [parse_value, h1, h2, h3, h4, h5, h6, hany, hp]
      · intro hp
        simp [parse_value, h1, h2, h3, h4, h5, h6, hany, hp]

/-- Witness for C6: a stripped uppercase boolean token and a float parse. -/
theorem override_value_typing_witness :
    parse_value " TRUE " = .bool true ∧ parse_value "2.5" = .float 25 (-1) :=
  ⟨(override_value_typing.1 " TRUE ").1 (by decide),
   (((override_value_typing.1 "2.5").2.2 (by decide) (by decide) (by decide)
        (by decide) (by decide) (by decide)).1 (by decide)).1 25 (-1) (by decide)⟩

/-- C7: `apply_changes` on a missing file fails with `FileNotFoundError`
and the buffer is returned unchanged (the exception is raised before any
edit); override-file lines that strip to blank, start with `#`/`;`, or
contain no `=` are skipped by the reader without contributing a change. -/
theorem apply_changes_missing_file :
    (∀ lines : List String, apply_changes lines none = (.error .fileNotFound, lines)) ∧
    (∀ (line : String) (rest : List String) (m : List (String × PyVal)),
        (pyStripL line.data = [] ∨
          isDelimC (pyStripL line.data).head! = true ∨
          (partitionEqL (pyStripL line.data)).2.1 = false) →
        read_changes_aux (line :: rest) m = read_changes_aux rest m) := by
  refine ⟨fun lines => rfl, fun line rest m h => ?_⟩
  rcases h with h | h | h
  · simp [read_changes_aux, h]
  · by_cases h0 : pyStripL line.data = []
    · simp [read_changes_aux, h0]
    · simp [read_changes_aux, h0, h]
  · by_cases h0 : pyStripL line.data = []
    · simp [read_changes_aux, h0]
    · by_cases h1 : isDelimC (pyStripL line.data).head! = true
      · simp [read_changes_aux, h0, h1]
      · rcases hp : partitionEqL (pyStripL line.data) with ⟨a, fl, b⟩
        rw [hp] at h
        simp only at h
        subst h
        simp [read_changes_aux, h0, h1, hp]

/-- Witness for C7: a missing file leaves the buffer untouched, and a
comment line of the override file is skipped. -/
theorem apply_changes_missing_file_witness :
    apply_changes ["dt = 0.002"] none = (.error .fileNotFound, ["dt = 0.002"]) ∧
    read_changes_aux ["# a comment", "nsteps500"] [] = read_changes_aux ["nsteps500"] [] :=
  ⟨apply_changes_missing_file.1 ["dt = 0.002"],
   apply_changes_missing_file.2 "# a comment" ["nsteps500"] [] (by decide)⟩

/-- C8: the Value Formatter maps boolean true to `"yes"` and false to
`"no"`, strips a string, first replaces an enumeration member by its
canonical string value and then treats it as a string, fails with a
`TypeError` naming the offending type on any unsupported value, and
never fails on booleans, integers, floats, strings or enumeration
members. -/
theorem formatter_value_mapping :
    format_gmx_value (.bool true) = .ok "yes" ∧
    format_gmx_value (.bool false) = .ok "no" ∧
    (∀ s : String, format_gmx_value (.str s) = .ok (pyStripS s)) ∧
    (∀ s : String, format_gmx_value (.enum s) = format_gmx_value (.str s)) ∧
    (∀ n : Int, format_gmx_value (.int n) = .ok (String.mk (intStr n))) ∧
    (∀ m e : Int, format_gmx_value (.float m e) = .ok (String.mk (decStr m e))) ∧
    (∀ t : String, format_gmx_value (.other t)
        = .error ("Unsupported .mdp value type: " ++ t)) ∧
    (∀ v : PyVal, (∃ s, format_gmx_value v = .ok s) ↔ ∀ t, v ≠ .other t) := by
  refine ⟨rfl, rfl, fun s => rfl, fun s => rfl, fun n => rfl, fun m e => rfl,
    fun t => rfl, fun v => ?_⟩
  cases v with
  | other t =>
    simp only [format_gmx_value]
    constructor
    · rintro ⟨s, hs⟩
      cases hs
    · intro h
      exact absurd rfl (h t)
  | bool b => exact ⟨fun _ t => by simp, fun _ => ⟨_, rfl⟩⟩
  | int n => exact ⟨fun _ t => by simp, fun _ => ⟨_, rfl⟩⟩
  | float m e => exact ⟨fun _ t => by simp, fun _ => ⟨_, rfl⟩⟩
  | str s => exact ⟨fun _ t => by simp, fun _ => ⟨_, rfl⟩⟩
  | enum s => exact ⟨fun _ t => by simp, fun _ => ⟨_, rfl⟩⟩

/-- C9: in the run helper, file-sourced overrides are applied to the
buffer first and the in-code mapping afterwards, so the later write wins:
with the override file setting `dt=0.001` and the mapping then setting
`dt` to `0.0005`, the first `dt` line ends at `0.0005`. -/
theorem override_then_mapping_order :
    run_gro_custom_config ["dt = 0.002"] (some [("dt", .float 5 (-4))])
        (some (some ["dt=0.001"]))
      = .ok ["dt = 0.0005"] ∧
    (∀ (lines : List String) (m : List (String × PyVal))
        (content : Option (List String)),
        run_gro_custom_config lines (some m) (some content)
          = match apply_changes lines content with
            | (.ok _, out) =>
              (match change_default_params out m with
               | .ok r => .ok r
               | .error msg => .error (.typeError msg))
            | (.error e, _) => .error e) := by
  refine ⟨rfl, fun lines m content => ?_⟩
  unfold run_gro_custom_config
  rcases h : apply_changes lines content with ⟨res, out⟩
  cases res with
  | error e => simp [h]
  | ok changes =>
    cases hc : change_default_params out m <;> simp [h, hc]

/-- C10: an override-file line `=5` (empty text before the first `=`) is
not skipped: the reader records the empty string as a key with the parsed
integer `5`, and on a buffer with no blank-key assignment line applying
the override appends a line of 28 spaces, `" = "`, and the value. -/
theorem blank_key_append :
    read_changes_aux ["=5"] [] = [("", .int 5)] ∧
    (∀ lines : List String,
        (∀ l ∈ lines, matchesKey [] l = false) →
        apply_changes lines (some ["=5"])
          = (.ok [("", .int 5)],
             lines ++ [String.mk (List.replicate 28 ' ' ++ ' ' :: '=' :: ' ' :: ['5'])])) := by
  refine ⟨rfl, fun lines h => ?_⟩
  have hcdp : change_default_params lines [("", PyVal.int 5)]
      = .ok (lines ++ [appendLine [] ['5']]) := by
    show (match set_mdp_key lines "" (.int 5) with
      | .ok out => change_default_params out []
      | .error e => .error e) = _
    have hsk : set_mdp_key lines "" (.int 5) = .ok (set_mdp_go [] ['5'] lines) := rfl
    rw [hsk]
    show change_default_params (set_mdp_go [] ['5'] lines) [] = _
    rw [set_go_no_match lines h]
    rfl
  show (match change_default_params lines [("", PyVal.int 5)] with
    | Except.ok out => (Except.ok [("", PyVal.int 5)], out)
    | Except.error m2 => (Except.error (PErr.typeError m2), lines)) = _
  rw [hcdp]
  rfl

/-- Witness for C10: the blank-key line appended after a one-line buffer. -/
theorem blank_key_append_witness :
    apply_changes ["a = 1"] (some ["=5"])
      = (.ok [("", PyVal.int 5)],
         ["a = 1", String.mk (List.replicate 28 ' ' ++ ' ' :: '=' :: ' ' :: ['5'])]) :=
  blank_key_append.2 ["a = 1"] (by decide)
